import Mathlib

/-!
Verification of the `lex-with-regexps` tokenizer.

The JavaScript source (src/index.js) is shallowly embedded here:
* JS strings become `List Char` (`Str`);
* the regular-expression fragments supplied in the pattern set become the
  AST `RE`, whose JS backtracking behaviour (ordered alternation, greedy
  star, characters and character classes) is captured by `matchLens`,
  the priority-ordered list of lengths of prefixes the expression can match;
* `buildLexerRegExp`, `matchNext`, `nextLocation`, the `SyntaxError`
  message format and `lex` mirror the functions of the same names in the
  source; the `while` loop of `lex` becomes the fuel-indexed `lexLoop`,
  with `none` modelling non-termination.
-/

namespace LexRe

/-- JS strings are modelled as lists of characters (UTF-16-unit counting in
JS corresponds to elementwise counting here). -/
abbrev Str := List Char

/-- AST of the regular-expression fragments that can appear as values of the
pattern set.  `cls` is a character class given by its membership test. -/
inductive RE where
  | eps : RE
  | ch : Char → RE
  | cls : (Char → Bool) → RE
  | cat : RE → RE → RE
  | alt : RE → RE → RE
  | star : RE → RE

/-- Greedy Kleene-star semantics, parameterised by the match-length list of
the body and fuelled by a bound on the remaining string length (each
retained iteration consumes at least one character, so `s.length` fuel is
always enough).  Returns the lengths of prefixes matched by the star, in
the JS backtracking priority order: more, earlier-priority iterations
first, the empty repetition last.  Body matches of length 0 do not spawn
another iteration (the JS engine stops a quantifier when an iteration
consumes nothing). -/
def starLensAux (f : Str → List Nat) : Nat → Str → List Nat
  | 0, _ => [0]
  | fuel + 1, s =>
    (((f s).filter (fun n => decide (0 < n) && decide (n ≤ s.length))).flatMap
      (fun n => (starLensAux f fuel (s.drop n)).map (fun m => n + m))) ++ [0]

/-- Greedy Kleene-star semantics with the canonical fuel. -/
def starLens (f : Str → List Nat) (s : Str) : List Nat :=
  starLensAux f s.length s

/-- Priority-ordered list of the lengths of prefixes of `s` that `re` can
match, in JS backtracking order: the head is the length `RegExp#exec` would
consume if this expression were the whole pattern anchored at the start of
`s`. -/
def matchLens : RE → Str → List Nat
  | .eps, _ => [0]
  | .ch c, s =>
    match s with
    | [] => []
    | a :: _ => if a = c then [1] else []
  | .cls p, s =>
    match s with
    | [] => []
    | a :: _ => if p a then [1] else []
  | .alt r1 r2, s => matchLens r1 s ++ matchLens r2 s
  | .cat r1 r2, s =>
    (matchLens r1 s).flatMap (fun n => (matchLens r2 (s.drop n)).map (fun m => n + m))
  | .star r, s => starLens (fun t => matchLens r t) s

/-- The result object of a successful `RegExp#exec`: `matched` is
`match[0]`, and `groups` is the named-groups object — `none` when the
regular expression contains no named group (JS leaves `groups` undefined
then), otherwise the association list of every group name to its captured
value in group order (`none` inside = the group did not participate). -/
structure JsMatch where
  matched : Str
  groups : Option (List (Str × Option Str))

/-- The combined lexer regular expression produced by `buildLexerRegExp`:
the ordered alternation of the pattern set's entries, each wrapped in a
named capture group carrying its token kind. -/
structure CombinedMatcher where
  alts : List (Str × RE)

/-- First alternative, in listed order, whose pattern matches at the start
of `s`, together with the length that alternative's own first (greedy)
match consumes.  This is exactly how the JS engine treats the ordered
alternation under the sticky flag: alternatives are tried left to right and
the overall match is the first success. -/
def findFirstAlt : List (Str × RE) → Str → Option (Str × Nat)
  | [], _ => none
  | (k, r) :: rest, s =>
    match (matchLens r s).head? with
    | some n => some (k, n)
    | none => findFirstAlt rest s

/-- Model of `lexerRegExp.lastIndex = index; lexerRegExp.exec(str)` for the
combined sticky regular expression.  An empty pattern set yields
`new RegExp("", "sy")`, which matches the empty string at every valid
index but has `groups` undefined. -/
def execSticky (m : CombinedMatcher) (str : Str) (index : Nat) : Option JsMatch :=
  if str.length < index then none
  else
    match m.alts with
    | [] => some ⟨[], none⟩
    | _ :: _ =>
      match findFirstAlt m.alts (str.drop index) with
      | none => none
      | some (k, n) =>
        let t := (str.drop index).take n
        some ⟨t, some (m.alts.map (fun p => (p.1, if p.1 = k then some t else none)))⟩

/-- JS truthiness of a named-group value: `undefined` and the empty string
are falsy, every non-empty string is truthy. -/
def truthy : Option Str → Bool
  | none => false
  | some s => !s.isEmpty

/-- Outcome of `matchNext`: `null`, a thrown `TypeError`
(`Object.keys(match.groups)` with `groups` undefined), or the returned
`{kind, text}` object (`kind` is `none` when `find` returns undefined). -/
inductive MatchNextResult where
  | noMatch : MatchNextResult
  | typeError : MatchNextResult
  | found : Option Str → Str → MatchNextResult
deriving DecidableEq

/-- Model of `matchNext` (src/index.js lines 9-22): run the sticky exec at
`index`; on `null` return `noMatch`; otherwise look up the first key of the
groups object whose value is truthy and return it with `match[0]`. -/
def matchNext (index : Nat) (str : Str) (m : CombinedMatcher) : MatchNextResult :=
  match execSticky m str index with
  | none => .noMatch
  | some jm =>
    match jm.groups with
    | none => .typeError
    | some gs => .found ((gs.find? (fun p => truthy p.2)).map (fun p => p.1)) jm.matched

/-- Source location: 0-based `index`, 1-based `line` and `column`. -/
structure Location where
  index : Nat
  line : Nat
  column : Nat
deriving DecidableEq

/-- Number of newline characters in `text`
(`text.match(/\n/g)?.length ?? 0`). -/
def countNewlines (text : Str) : Nat := text.countP (fun c => c = '\n')

/-- Model of `text.lastIndexOf("\n")`: the index of the last newline
character, `none` playing the role of `-1`. -/
def lastNewlineIndex : Str → Option Nat
  | [] => none
  | c :: rest =>
    match lastNewlineIndex rest with
    | some p => some (p + 1)
    | none => if c = '\n' then some 0 else none

/-- Model of `nextLocation` (src/index.js lines 24-35). -/
def nextLocation (loc : Location) (text : Str) : Location :=
  { index := loc.index + text.length
    line := loc.line + countNewlines text
    column :=
      match lastNewlineIndex text with
      | some p => text.length - p
      | none => loc.column + text.length }

/-- Model of `src.split("\n")`. -/
def splitNl : Str → List Str
  | [] => [[]]
  | c :: rest =>
    if c = '\n' then [] :: splitNl rest
    else
      match splitNl rest with
      | [] => [[c]]
      | l :: ls => (c :: l) :: ls

/-- What JS template interpolation prints for an undefined value (reached
only when `loc.line - 1` is outside the split's range). -/
def undefinedStr : Str := "undefined".data

/-- Decimal rendering of a number, as JS template interpolation does. -/
def natStr (n : Nat) : Str := (Nat.repr n).data

/-- The data carried by a thrown `SyntaxError`: its `loc` and `src` fields
and the raw `msg` passed to the constructor. -/
structure SyntaxErrorData where
  loc : Location
  src : Str
  msg : Str
deriving DecidableEq

/-- The `message` computed by the `SyntaxError` constructor
(src/index.js lines 37-45). -/
def syntaxErrorMessage (e : SyntaxErrorData) : Str :=
  let line := (splitNl e.src).getD (e.loc.line - 1) undefinedStr
  let marker := List.replicate (e.loc.column - 1) ' ' ++ ['^']
  natStr e.loc.line ++ [':'] ++ natStr e.loc.column ++ [':', ' '] ++ e.msg
    ++ ['\n'] ++ line ++ ['\n'] ++ marker

/-- The ways a `lex` call can throw: a lexing `SyntaxError`, a
configuration-time error from `new RegExp` in `buildLexerRegExp`
(the spec's `PatternError`), or the `TypeError` thrown by
`Object.keys(match.groups)` when `groups` is undefined. -/
inductive LexError where
  | syntaxError : SyntaxErrorData → LexError
  | patternError : LexError
  | typeError : LexError
deriving DecidableEq

/-- A group name `new RegExp` accepts (ASCII identifier model: JS requires
an identifier, and rejects anything else with a configuration-time
SyntaxError from the constructor). -/
def validGroupName (s : Str) : Bool :=
  match s with
  | [] => false
  | c :: rest =>
    (c.isAlpha || c = '_' || c = '$') &&
      rest.all (fun d => d.isAlphanum || d = '_' || d = '$')

/-- Model of `buildLexerRegExp` (src/index.js lines 1-7): wrap each entry in
a named group and join with `|`.  `new RegExp` throws exactly when some
kind-name is not usable as a group name or two entries share a name; the
fragments themselves are ASTs and hence always well-formed. -/
def buildLexerRegExp (regExps : List (Str × RE)) : Except LexError CombinedMatcher :=
  if (regExps.all (fun p => validGroupName p.1)) ∧ (regExps.map Prod.fst).Nodup then
    .ok ⟨regExps⟩
  else .error .patternError

/-- A produced token: `kind` is `none` when `matchNext` computed an
undefined kind (zero-length match). -/
structure Token where
  kind : Option Str
  text : Str
  loc : Location
deriving DecidableEq

deriving instance DecidableEq for Except

/-- The message string passed to the `SyntaxError` constructor by `lex`. -/
def unknownTokenMsg : Str := "Unknown token".data

/-- The `while` loop of `lex` (src/index.js lines 51-56), indexed by fuel;
`none` means the loop has not terminated within `fuel` iterations. -/
def lexLoop (m : CombinedMatcher) (src : Str) :
    Nat → Location → List Token → Option (Except LexError (List Token))
  | 0, _, _ => none
  | fuel + 1, loc, tokens =>
    if loc.index < src.length then
      match matchNext loc.index src m with
      | .noMatch => some (.error (.syntaxError ⟨loc, src, unknownTokenMsg⟩))
      | .typeError => some (.error .typeError)
      | .found k t => lexLoop m src fuel (nextLocation loc t) (tokens ++ [⟨k, t, loc⟩])
    else some (.ok tokens)

/-- The document origin `{index: 0, line: 1, column: 1}`. -/
def startLocation : Location := ⟨0, 1, 1⟩

/-- Model of `lex` (src/index.js lines 47-58). -/
def lex (src : Str) (regExps : List (Str × RE)) (fuel : Nat) :
    Option (Except LexError (List Token)) :=
  match buildLexerRegExp regExps with
  | .error e => some (.error e)
  | .ok m => lexLoop m src fuel startLocation []

/-- Literal regular expression matching exactly the given characters. -/
def reOfStr : Str → RE
  | [] => .eps
  | c :: rest => .cat (.ch c) (reOfStr rest)

/-- The `+` quantifier: one, then zero-or-more. -/
def rePlus (r : RE) : RE := .cat r (.star r)

/-- The `\d` class. -/
def isDigitChar (c : Char) : Bool := '0' ≤ c && c ≤ '9'

/-- The `[a-zA-Z_]` class. -/
def isWordStartChar (c : Char) : Bool :=
  ('a' ≤ c && c ≤ 'z') || ('A' ≤ c && c ≤ 'Z') || c = '_'

/-- The `[a-zA-Z0-9_]` class. -/
def isWordChar (c : Char) : Bool := isWordStartChar c || isDigitChar c

/-- The `\s` class (ASCII part). -/
def isSpaceChar (c : Char) : Bool :=
  c = ' ' || c = '\t' || c = '\n' || c = '\r' || c = '\x0B' || c = '\x0C'

/-- The example pattern `/[a-zA-Z_][a-zA-Z0-9_]*/`. -/
def idRe : RE := .cat (.cls isWordStartChar) (.star (.cls isWordChar))

/-- The example pattern `/\d+/`. -/
def numRe : RE := rePlus (.cls isDigitChar)

/-- The example pattern `/\s+/`. -/
def wsRe : RE := rePlus (.cls isSpaceChar)

/-- The documentation's example pattern set `{id, num, ws}`. -/
def sampleSet : List (Str × RE) :=
  [("id".data, idRe), ("num".data, numRe), ("ws".data, wsRe)]

/-- The token lists a successful run of the `lex` loop produces from a given
location: each token is matched at the current location, which then
advances, until the end of input is reached. -/
inductive TokChain (m : CombinedMatcher) (src : Str) : Location → List Token → Prop
  | nil (loc : Location) (h : ¬ loc.index < src.length) : TokChain m src loc []
  | cons (loc : Location) (k : Option Str) (t : Str) (rest : List Token)
      (hlt : loc.index < src.length)
      (hm : matchNext loc.index src m = .found k t)
      (hrest : TokChain m src (nextLocation loc t) rest) :
      TokChain m src loc (⟨k, t, loc⟩ :: rest)

/-- The scan locations the `lex` loop visits when started at a given
location. -/
inductive ReachesFrom (m : CombinedMatcher) (src : Str) : Location → Location → Prop
  | refl (loc : Location) : ReachesFrom m src loc loc
  | step (loc loc2 : Location) (k : Option Str) (t : Str)
      (hlt : loc.index < src.length)
      (hm : matchNext loc.index src m = .found k t)
      (h : ReachesFrom m src (nextLocation loc t) loc2) :
      ReachesFrom m src loc loc2

/-- Detects the zero-length-match hazard: a successful `matchNext` whose
consumed text is empty. -/
def foundEmpty : MatchNextResult → Bool
  | .found _ [] => true
  | _ => false

/-- Every length returned by the fuelled star is at most the string length. -/
theorem starLensAux_le (f : Str → List Nat) (fuel : Nat) :
    ∀ (s : Str) (n : Nat), n ∈ starLensAux f fuel s → n ≤ s.length := by
  induction fuel with
  | zero =>
    intro s n hn
    simp only [starLensAux, List.mem_singleton] at hn
    omega
  | succ fuel ih =>
    intro s n hn
    simp only [starLensAux, List.mem_append, List.mem_flatMap, List.mem_map,
      List.mem_filter, List.mem_singleton, Bool.and_eq_true, decide_eq_true_eq] at hn
    rcases hn with ⟨n1, ⟨_, h1pos, h1le⟩, m, hm, rfl⟩ | rfl
    · have := ih (s.drop n1) m hm
      simp only [List.length_drop] at this
      omega
    · omega

/-- Every length returned by `matchLens` is at most the string length: a
match consumes a prefix of the remaining input. -/
theorem matchLens_le : ∀ (re : RE) (s : Str) (n : Nat), n ∈ matchLens re s → n ≤ s.length := by
  intro re
  induction re with
  | eps =>
    intro s n hn
    simp only [matchLens, List.mem_singleton] at hn
    omega
  | ch c =>
    intro s n hn
    match s with
    | [] => simp [matchLens] at hn
    | a :: rest =>
      simp only [matchLens] at hn
      by_cases hac : a = c
      · simp only [if_pos hac, List.mem_singleton] at hn
        simp [hn]
      · simp [if_neg hac] at hn
  | cls p =>
    intro s n hn
    match s with
    | [] => simp [matchLens] at hn
    | a :: rest =>
      simp only [matchLens] at hn
      by_cases hac : p a
      · simp only [if_pos hac, List.mem_singleton] at hn
        simp [hn]
      · simp [if_neg hac] at hn
  | alt r1 r2 ih1 ih2 =>
    intro s n hn
    simp only [matchLens, List.mem_append] at hn
    rcases hn with hn | hn
    · exact ih1 s n hn
    · exact ih2 s n hn
  | cat r1 r2 ih1 ih2 =>
    intro s n hn
    simp only [matchLens, List.mem_flatMap, List.mem_map] at hn
    rcases hn with ⟨n1, h1, m, hm, rfl⟩
    have hl1 := ih1 s n1 h1
    have hl2 := ih2 (s.drop n1) m hm
    simp only [List.length_drop] at hl2
    omega
  | star r ih =>
    intro s n hn
    exact starLensAux_le _ _ s n hn

/-- Inversion for a successful `findFirstAlt`: the winning kind names an
entry of the alternation and the length is that entry's first match. -/
theorem findFirstAlt_mem {alts : List (Str × RE)} {s : Str} {k : Str} {n : Nat}
    (h : findFirstAlt alts s = some (k, n)) :
    ∃ r, (k, r) ∈ alts ∧ (matchLens r s).head? = some n := by
  induction alts with
  | nil => simp [findFirstAlt] at h
  | cons p rest ih =>
    obtain ⟨k1, r1⟩ := p
    simp only [findFirstAlt] at h
    cases hh : (matchLens r1 s).head? with
    | some n1 =>
      rw [hh] at h
      injection h with h
      injection h with h1 h2
      subst h1; subst h2
      exact ⟨r1, List.mem_cons_self _ _, hh⟩
    | none =>
      rw [hh] at h
      obtain ⟨r, hr, hh2⟩ := ih h
      exact ⟨r, List.mem_cons_of_mem _ hr, hh2⟩

/-- `findFirstAlt` fails exactly when no alternative matches at the start
of `s`. -/
theorem findFirstAlt_eq_none_iff {alts : List (Str × RE)} {s : Str} :
    findFirstAlt alts s = none ↔ ∀ p ∈ alts, matchLens p.2 s = [] := by
  induction alts with
  | nil => simp [findFirstAlt]
  | cons p rest ih =>
    obtain ⟨k1, r1⟩ := p
    simp only [findFirstAlt]
    cases hh : (matchLens r1 s).head? with
    | some n1 =>
      simp only [List.mem_cons]
      constructor
      · intro h; cases h
      · intro h
        have := h (k1, r1) (Or.inl rfl)
        simp only at this
        rw [this] at hh
        cases hh
    | none =>
      rw [List.head?_eq_none_iff] at hh
      simp only [ih, List.mem_cons]
      constructor
      · intro h q hq
        rcases hq with rfl | hq
        · exact hh
        · exact h q hq
      · intro h q hq
        exact h q (Or.inr hq)

/-- Alternatives that do not match at the scan position are skipped. -/
theorem findFirstAlt_append {pre rest : List (Str × RE)} {s : Str}
    (h : ∀ p ∈ pre, matchLens p.2 s = []) :
    findFirstAlt (pre ++ rest) s = findFirstAlt rest s := by
  induction pre with
  | nil => rfl
  | cons p pre ih =>
    obtain ⟨k1, r1⟩ := p
    have h1 : matchLens r1 s = [] := h (k1, r1) (List.mem_cons_self _ _)
    simp only [List.cons_append, findFirstAlt, h1, List.head?_nil]
    exact ih (fun q hq => h q (List.mem_cons_of_mem _ hq))

/-- The groups lookup of `matchNext` finds the winning (non-empty) capture:
it returns the first group whose key is the winning kind. -/
theorem find?_groups_of_ne {alts : List (Str × RE)} {k : Str} {r : RE} {t : Str}
    (hmem : (k, r) ∈ alts) (ht : t ≠ []) :
    ((alts.map (fun p => (p.1, if p.1 = k then some t else none))).find?
      (fun p => truthy p.2)).map (fun p => p.1) = some k := by
  induction alts with
  | nil => cases hmem
  | cons p rest ih =>
    obtain ⟨k1, r1⟩ := p
    by_cases hk : k1 = k
    · subst hk
      have htr : truthy (some t) = true := by simp [truthy, List.isEmpty_iff, ht]
      simp [List.find?_cons, htr]
    · have hfa : truthy (none : Option Str) = false := rfl
      simp only [List.map_cons, List.find?_cons, if_neg hk, hfa]
      rcases List.mem_cons.1 hmem with heq | hmem2
      · cases heq; cases hk rfl
      · exact ih hmem2

/-- With an empty winning capture every group value is falsy, so the groups
lookup finds nothing and the kind is undefined. -/
theorem find?_groups_of_empty {alts : List (Str × RE)} {k : Str} :
    (alts.map (fun p => (p.1, if p.1 = k then some ([] : Str) else none))).find?
      (fun p => truthy p.2) = none := by
  induction alts with
  | nil => rfl
  | cons p rest ih =>
    obtain ⟨k1, r1⟩ := p
    have he : truthy (some ([] : Str)) = false := rfl
    have hfa : truthy (none : Option Str) = false := rfl
    by_cases hk : k1 = k
    · simp only [List.map_cons, List.find?_cons, if_pos hk, he]
      exact ih
    · simp only [List.map_cons, List.find?_cons, if_neg hk, hfa]
      exact ih

/-- A last-newline index is inside the text. -/
theorem lastNewlineIndex_lt : ∀ {t : Str} {p : Nat}, lastNewlineIndex t = some p → p < t.length := by
  intro t
  induction t with
  | nil => intro p h; cases h
  | cons c rest ih =>
    intro p h
    simp only [lastNewlineIndex] at h
    cases hr : lastNewlineIndex rest with
    | some q =>
      rw [hr] at h
      injection h with h
      have := ih hr
      simp only [List.length_cons]
      omega
    | none =>
      rw [hr] at h
      by_cases hc : c = '\n'
      · rw [if_pos hc] at h
        injection h with h
        simp only [List.length_cons]
        omega
      · rw [if_neg hc] at h
        cases h

/-- A last-newline index points at a newline. -/
theorem lastNewlineIndex_nl : ∀ {t : Str} {p : Nat},
    lastNewlineIndex t = some p → t[p]? = some '\n' := by
  intro t
  induction t with
  | nil => intro p h; cases h
  | cons c rest ih =>
    intro p h
    simp only [lastNewlineIndex] at h
    cases hr : lastNewlineIndex rest with
    | some q =>
      rw [hr] at h
      injection h with h
      subst h
      simpa using ih hr
    | none =>
      rw [hr] at h
      by_cases hc : c = '\n'
      · rw [if_pos hc] at h
        injection h with h
        subst h
        simp [hc]
      · rw [if_neg hc] at h
        cases h

/-- `lastIndexOf` returns `-1` exactly when there is no newline at all. -/
theorem lastNewlineIndex_eq_none_iff : ∀ {t : Str},
    lastNewlineIndex t = none ↔ '\n' ∉ t := by
  intro t
  induction t with
  | nil => simp [lastNewlineIndex]
  | cons c rest ih =>
    simp only [lastNewlineIndex, List.mem_cons]
    cases hr : lastNewlineIndex rest with
    | some q =>
      rw [hr] at ih
      constructor
      · intro h; cases h
      · intro h
        exfalso
        have hmem : '\n' ∉ rest := fun hm => h (Or.inr hm)
        exact Option.some_ne_none q (ih.2 hmem)
    | none =>
      rw [hr] at ih
      have hrest : '\n' ∉ rest := ih.1 rfl
      by_cases hc : c = '\n'
      · rw [if_pos hc]
        constructor
        · intro h; cases h
        · intro h; exact absurd (Or.inl hc.symm) h
      · rw [if_neg hc]
        constructor
        · intro _ h
          rcases h with h | h
          · exact hc h.symm
          · exact hrest h
        · intro _; rfl

/-- A last-newline index bounds every newline position from above. -/
theorem lastNewlineIndex_max : ∀ {t : Str} {p : Nat}, lastNewlineIndex t = some p →
    ∀ q, q < t.length → t[q]? = some '\n' → q ≤ p := by
  intro t
  induction t with
  | nil => intro p h; cases h
  | cons c rest ih =>
    intro p h q hq hnl
    simp only [lastNewlineIndex] at h
    cases hr : lastNewlineIndex rest with
    | some p0 =>
      rw [hr] at h
      injection h with h
      subst h
      match q with
      | 0 => omega
      | q1 + 1 =>
        rw [List.getElem?_cons_succ] at hnl
        have := ih hr q1 (by simpa using hq) hnl
        omega
    | none =>
      rw [hr] at h
      by_cases hc : c = '\n'
      · rw [if_pos hc] at h
        injection h with h
        subst h
        match q with
        | 0 => omega
        | q1 + 1 =>
          rw [List.getElem?_cons_succ] at hnl
          exfalso
          exact lastNewlineIndex_eq_none_iff.1 hr
            (List.mem_iff_getElem?.2 ⟨q1, hnl⟩)
      · rw [if_neg hc] at h
        cases h

/-- The newline count is zero exactly when `lastIndexOf` finds nothing. -/
theorem countNewlines_eq_zero_iff {t : Str} :
    countNewlines t = 0 ↔ lastNewlineIndex t = none := by
  rw [lastNewlineIndex_eq_none_iff]
  simp only [countNewlines, List.countP_eq_zero, decide_eq_true_eq]
  constructor
  · intro h hmem
    exact h '\n' hmem rfl
  · intro h a ha hc
    subst hc
    exact h ha

/-- The index advances by exactly the consumed length. -/
theorem nextLocation_index (loc : Location) (t : Str) :
    (nextLocation loc t).index = loc.index + t.length := rfl

/-- The line number advances by exactly the newline count. -/
theorem nextLocation_line (loc : Location) (t : Str) :
    (nextLocation loc t).line = loc.line + countNewlines t := rfl

/-- Advancing never lowers the line number. -/
theorem nextLocation_line_le (loc : Location) (t : Str) :
    loc.line ≤ (nextLocation loc t).line :=
  Nat.le_add_right _ _

/-- Advancing preserves the column invariant `column ≥ 1`. -/
theorem nextLocation_column_pos (loc : Location) (t : Str) (h : 1 ≤ loc.column) :
    1 ≤ (nextLocation loc t).column := by
  simp only [nextLocation]
  cases hl : lastNewlineIndex t with
  | some p =>
    have := lastNewlineIndex_lt hl
    simp only []
    omega
  | none =>
    simp only []
    omega

/-- On the empty alternation `exec` matches the empty string but the groups
object is undefined, so `matchNext` throws. -/
theorem matchNext_nil_alts {i : Nat} {str : Str} (h : i ≤ str.length) :
    matchNext i str ⟨[]⟩ = .typeError := by
  simp [matchNext, execSticky, Nat.not_lt.2 h]

/-- A non-empty alternation none of whose entries matches at the scan
position yields `null`. -/
theorem matchNext_eq_noMatch {alts : List (Str × RE)} {i : Nat} {str : Str}
    (h : ∀ p ∈ alts, matchLens p.2 (str.drop i) = []) :
    alts ≠ [] → matchNext i str ⟨alts⟩ = .noMatch := by
  intro halts
  by_cases hle : str.length < i
  · simp [matchNext, execSticky, hle]
  · match alts, halts with
    | a :: rest, _ =>
      have hffa : findFirstAlt (a :: rest) (str.drop i) = none :=
        findFirstAlt_eq_none_iff.2 h
      simp [matchNext, execSticky, hle, hffa]

/-- Computation of a successful `matchNext` from the winning alternative. -/
theorem matchNext_eq_found {alts : List (Str × RE)} {i n : Nat} {str : Str} {k : Str}
    (hffa : findFirstAlt alts (str.drop i) = some (k, n)) (hle : i ≤ str.length) :
    matchNext i str ⟨alts⟩ =
      .found (if (str.drop i).take n = [] then none else some k) ((str.drop i).take n) := by
  have hnlt : ¬ str.length < i := Nat.not_lt.2 hle
  match alts, hffa with
  | a :: rest, hffa =>
    obtain ⟨r, hmem, _⟩ := findFirstAlt_mem hffa
    simp only [matchNext, execSticky, if_neg hnlt, hffa]
    by_cases ht : (str.drop i).take n = []
    · rw [ht, if_pos rfl]
      simp only [ht, find?_groups_of_empty]
      rfl
    · rw [if_neg ht]
      have : ((((a :: rest).map (fun p => (p.1, if p.1 = k then some ((str.drop i).take n) else none))).find?
          (fun p => truthy p.2)).map (fun p => p.1)) = some k :=
        find?_groups_of_ne hmem ht
      simp only [this]

/-- Inversion of a successful `matchNext`: the consumed text is the prefix
of the remaining input of the winning length, and the reported kind is the
winning alternative's name unless the match is empty. -/
theorem matchNext_found_inv {i : Nat} {str : Str} {m : CombinedMatcher}
    {kOpt : Option Str} {t : Str}
    (h : matchNext i str m = .found kOpt t) :
    i ≤ str.length ∧ ∃ k r n, (k, r) ∈ m.alts ∧
      findFirstAlt m.alts (str.drop i) = some (k, n) ∧
      n ≤ str.length - i ∧ t = (str.drop i).take n ∧ t.length = n ∧
      kOpt = (if t = [] then none else some k) := by
  obtain ⟨alts⟩ := m
  by_cases hlt : str.length < i
  · simp [matchNext, execSticky, hlt] at h
  cases alts with
  | nil =>
    rw [matchNext_nil_alts (Nat.not_lt.1 hlt)] at h
    cases h
  | cons a rest =>
    cases hffa : findFirstAlt (a :: rest) (str.drop i) with
    | none => simp [matchNext, execSticky, hlt, hffa] at h
    | some kn =>
      obtain ⟨k, n⟩ := kn
      rw [matchNext_eq_found hffa (Nat.not_lt.1 hlt)] at h
      injection h with h1 h2
      subst h2
      obtain ⟨r, hmem, hhd⟩ := findFirstAlt_mem hffa
      have hnmem : n ∈ matchLens r (str.drop i) :=
        List.mem_of_mem_head? (Option.mem_def.2 hhd)
      have hnle : n ≤ (str.drop i).length := matchLens_le _ _ _ hnmem
      refine ⟨Nat.not_lt.1 hlt, k, r, n, hmem, rfl, ?_, rfl, ?_, h1.symm⟩
      · simpa using hnle
      · simp only [List.length_take]
        omega

/-- A successful loop run extends the accumulator with a token chain. -/
theorem lexLoop_ok_chain {m : CombinedMatcher} {src : Str} :
    ∀ {fuel : Nat} {loc : Location} {acc ts : List Token},
      lexLoop m src fuel loc acc = some (.ok ts) →
      ∃ suf, ts = acc ++ suf ∧ TokChain m src loc suf := by
  intro fuel
  induction fuel with
  | zero => intro loc acc ts h; cases h
  | succ fuel ih =>
    intro loc acc ts h
    simp only [lexLoop] at h
    by_cases hlt : loc.index < src.length
    · rw [if_pos hlt] at h
      cases hm : matchNext loc.index src m with
      | noMatch => rw [hm] at h; simp at h
      | typeError => rw [hm] at h; simp at h
      | found k t =>
        rw [hm] at h
        obtain ⟨suf, hts, hchain⟩ := ih h
        exact ⟨⟨k, t, loc⟩ :: suf, by simp [hts],
          TokChain.cons loc k t suf hlt hm hchain⟩
    · rw [if_neg hlt] at h
      simp only [Option.some.injEq, Except.ok.injEq] at h
      exact ⟨[], by simp [h], TokChain.nil loc hlt⟩

/-- A loop run that throws a `SyntaxError` throws it at a reachable
location strictly before end of input at which the matcher failed, with
the raw source and the fixed message. -/
theorem lexLoop_err_inv {m : CombinedMatcher} {src : Str} :
    ∀ {fuel : Nat} {loc : Location} {acc : List Token} {d : SyntaxErrorData},
      lexLoop m src fuel loc acc = some (.error (.syntaxError d)) →
      d.src = src ∧ d.msg = unknownTokenMsg ∧ d.loc.index < src.length ∧
        matchNext d.loc.index src m = .noMatch ∧ ReachesFrom m src loc d.loc := by
  intro fuel
  induction fuel with
  | zero => intro loc acc d h; cases h
  | succ fuel ih =>
    intro loc acc d h
    simp only [lexLoop] at h
    by_cases hlt : loc.index < src.length
    · rw [if_pos hlt] at h
      cases hm : matchNext loc.index src m with
      | noMatch =>
        rw [hm] at h
        simp only [Option.some.injEq, Except.error.injEq,
          LexError.syntaxError.injEq] at h
        subst h
        exact ⟨rfl, rfl, hlt, hm, ReachesFrom.refl loc⟩
      | typeError => rw [hm] at h; simp at h
      | found k t =>
        rw [hm] at h
        obtain ⟨h1, h2, h3, h4, h5⟩ := ih h
        exact ⟨h1, h2, h3, h4, ReachesFrom.step loc d.loc k t hlt hm h5⟩
    · rw [if_neg hlt] at h
      simp at h

/-- Determinism of the loop: if a reachable location strictly before end of
input has no match, any completed run reports the `SyntaxError` at exactly
that location. -/
theorem lexLoop_reach_noMatch {m : CombinedMatcher} {src : Str} {loc0 loc : Location}
    (hr : ReachesFrom m src loc0 loc) :
    loc.index < src.length →
    matchNext loc.index src m = .noMatch →
    ∀ {fuel : Nat} {acc : List Token} {r : Except LexError (List Token)},
      lexLoop m src fuel loc0 acc = some r →
      r = .error (.syntaxError ⟨loc, src, unknownTokenMsg⟩) := by
  induction hr with
  | refl loc1 =>
    intro hlt hm fuel acc r h
    match fuel with
    | 0 => cases h
    | fuel + 1 =>
      simp only [lexLoop, if_pos hlt, hm, Option.some.injEq] at h
      exact h.symm
  | step loc1 loc2 k t hlt1 hm1 hrest ih =>
    intro hlt hm fuel acc r h
    match fuel with
    | 0 => cases h
    | fuel + 1 =>
      simp only [lexLoop, if_pos hlt1, hm1] at h
      exact ih hlt hm h

/-- When no reachable match is empty, the loop terminates within
`remaining + 1` fuel, i.e. after at most `remaining` iterations. -/
theorem lexLoop_isSome {m : CombinedMatcher} {src : Str}
    (hprog : ∀ i, i < src.length → foundEmpty (matchNext i src m) = false) :
    ∀ (fuel : Nat) (loc : Location) (acc : List Token),
      src.length - loc.index < fuel →
      lexLoop m src fuel loc acc ≠ none := by
  intro fuel
  induction fuel with
  | zero => intro loc acc h; omega
  | succ fuel ih =>
    intro loc acc hfuel
    simp only [lexLoop]
    by_cases hlt : loc.index < src.length
    · rw [if_pos hlt]
      cases hm : matchNext loc.index src m with
      | noMatch => simp
      | typeError => simp
      | found k t =>
        apply ih
        have ht : t ≠ [] := by
          intro hte
          subst hte
          have hp := hprog loc.index hlt
          rw [hm] at hp
          simp [foundEmpty] at hp
        have htl : 1 ≤ t.length := List.length_pos.2 ht
        rw [nextLocation_index]
        omega
    · rw [if_neg hlt]
      simp

/-- The first token of a chain carries the chain's start location. -/
theorem tokChain_head_loc {m : CombinedMatcher} {src : Str} {loc : Location}
    {tok : Token} {rest : List Token}
    (h : TokChain m src loc (tok :: rest)) : tok.loc = loc := by
  cases h
  rfl

/-- Concatenating the texts of a chain reproduces the input from the
chain's start index. -/
theorem tokChain_flatten {m : CombinedMatcher} {src : Str} :
    ∀ {loc : Location} {ts : List Token}, TokChain m src loc ts →
      loc.index ≤ src.length →
      (ts.map Token.text).flatten = src.drop loc.index := by
  intro loc ts h
  induction h with
  | nil loc hend =>
    intro hle
    have : src.length ≤ loc.index := Nat.not_lt.1 hend
    simp [List.drop_eq_nil_of_le this]
  | cons loc k t rest hlt hm hrest ih =>
    intro hle
    obtain ⟨_, k0, r0, n, _, _, hnle, ht, htl, _⟩ := matchNext_found_inv hm
    have hidx : (nextLocation loc t).index = loc.index + t.length :=
      nextLocation_index loc t
    have hihle : (nextLocation loc t).index ≤ src.length := by
      rw [hidx]
      omega
    have := ih hihle
    rw [hidx] at this
    simp only [List.map_cons, List.flatten_cons, this]
    subst ht
    rw [htl, ← List.drop_drop]
    exact List.take_append_drop n (src.drop loc.index)

/-- Every token of a chain started at a column ≥ 1 itself has column ≥ 1. -/
theorem tokChain_column {m : CombinedMatcher} {src : Str} :
    ∀ {loc : Location} {ts : List Token}, TokChain m src loc ts → 1 ≤ loc.column →
      ∀ tok ∈ ts, 1 ≤ tok.loc.column := by
  intro loc ts h
  induction h with
  | nil loc hend => intro _ tok htok; cases htok
  | cons loc k t rest hlt hm hrest ih =>
    intro hcol tok htok
    rcases List.mem_cons.1 htok with rfl | htok
    · exact hcol
    · exact ih (nextLocation_column_pos loc t hcol) tok htok

/-- Consecutive tokens of a chain: the successor's location is obtained by
advancing over the predecessor's text. -/
theorem tokChain_chain {m : CombinedMatcher} {src : Str} :
    ∀ {loc : Location} {ts : List Token}, TokChain m src loc ts →
      List.Chain' (fun a b => b.loc = nextLocation a.loc a.text) ts := by
  intro loc ts h
  induction h with
  | nil loc hend => exact List.chain'_nil
  | cons loc k t rest hlt hm hrest ih =>
    cases rest with
    | nil => simp
    | cons tok2 rest2 =>
      rw [List.chain'_cons]
      exact ⟨tokChain_head_loc hrest, ih⟩

/-- Advancing locations never lowers the index or the line. -/
theorem chain_mono_of_adv {ts : List Token}
    (h : List.Chain' (fun a b => b.loc = nextLocation a.loc a.text) ts) :
    List.Chain' (fun a b => a.loc.index ≤ b.loc.index ∧ a.loc.line ≤ b.loc.line) ts := by
  refine List.Chain'.imp ?_ h
  intro a b hab
  rw [hab, nextLocation_index, nextLocation_line]
  exact ⟨Nat.le_add_right _ _, Nat.le_add_right _ _⟩

/-- With non-empty texts, advancing strictly increases the index. -/
theorem chain_strict_of_adv : ∀ {ts : List Token},
    List.Chain' (fun a b => b.loc = nextLocation a.loc a.text) ts →
    (∀ tok ∈ ts, tok.text ≠ []) →
    List.Chain' (fun a b => a.loc.index < b.loc.index) ts := by
  intro ts
  induction ts with
  | nil => intro _ _; exact List.chain'_nil
  | cons a rest ih =>
    cases rest with
    | nil => intro _ _; simp
    | cons b rest2 =>
      intro h hne
      rw [List.chain'_cons] at h ⊢
      refine ⟨?_, ih h.2 (fun tok htok => hne tok (List.mem_cons_of_mem _ htok))⟩
      rw [h.1, nextLocation_index]
      have hlen : 1 ≤ a.text.length :=
        List.length_pos.2 (hne a (List.mem_cons_self _ _))
      omega

/-- C1: for every source string and pattern set on which `lex` succeeds
(returns a token sequence without raising), concatenating the `text` fields
of the returned tokens in order yields exactly the original source string —
no gaps, no overlaps, no skipped characters. -/
theorem C1_coverage (src : Str) (regExps : List (Str × RE)) (fuel : Nat) (ts : List Token)
    (h : lex src regExps fuel = some (.ok ts)) :
    (ts.map Token.text).flatten = src := by
  unfold lex at h
  cases hb : buildLexerRegExp regExps with
  | error e => rw [hb] at h; simp at h
  | ok m =>
    rw [hb] at h
    obtain ⟨suf, hts, hchain⟩ := lexLoop_ok_chain h
    simp only [List.nil_append] at hts
    subst hts
    have := tokChain_flatten hchain (Nat.zero_le _)
    simpa [startLocation] using this

/-- Witness for C1 at the documentation's `lex("one 42", {id, num, ws})`
example. -/
theorem C1_coverage_witness :
    (([⟨some "id".data, "one".data, ⟨0, 1, 1⟩⟩,
       ⟨some "ws".data, " ".data, ⟨3, 1, 4⟩⟩,
       ⟨some "num".data, "42".data, ⟨4, 1, 5⟩⟩] : List Token).map Token.text).flatten
      = "one 42".data :=
  C1_coverage "one 42".data sampleSet 10 _ (by decide)

/-- C2: `nextLocation` adds the text length to the index, the newline count
to the line, and computes the column from the last newline when one exists
and from the old column otherwise; in particular the two documented example
evaluations hold. -/
theorem C2_nextLocation :
    (∀ (loc : Location) (text : Str), 1 ≤ loc.line → 1 ≤ loc.column →
      (nextLocation loc text).index = loc.index + text.length ∧
      (nextLocation loc text).line = loc.line + countNewlines text ∧
      (0 < countNewlines text →
        ∀ p, p < text.length → text[p]? = some '\n' →
          (∀ q, q < text.length → text[q]? = some '\n' → q ≤ p) →
          (nextLocation loc text).column = text.length - p) ∧
      (countNewlines text = 0 →
        (nextLocation loc text).column = loc.column + text.length)) ∧
    nextLocation ⟨0, 1, 1⟩ "aaa \n bb".data = ⟨8, 2, 4⟩ ∧
    nextLocation ⟨0, 1, 1⟩ "aa".data = ⟨2, 1, 3⟩ := by
  refine ⟨?_, by decide, by decide⟩
  intro loc text _ _
  refine ⟨rfl, rfl, ?_, ?_⟩
  · intro hk p hp hnl hmax
    cases hl : lastNewlineIndex text with
    | none =>
      rw [← countNewlines_eq_zero_iff] at hl
      omega
    | some p2 =>
      have h1 := lastNewlineIndex_nl hl
      have h2 := lastNewlineIndex_lt hl
      have h3 : p ≤ p2 := lastNewlineIndex_max hl p hp hnl
      have h4 : p2 ≤ p := hmax p2 h2 h1
      have hpp : p2 = p := Nat.le_antisymm h4 h3
      subst hpp
      simp only [nextLocation, hl]
  · intro hk
    have hl : lastNewlineIndex text = none := countNewlines_eq_zero_iff.1 hk
    simp only [nextLocation, hl]

/-- Witness for C2 on `"a\nbc"`, whose last newline sits at offset 1. -/
theorem C2_nextLocation_witness :
    (nextLocation ⟨5, 2, 7⟩ "a\nbc".data).column = "a\nbc".data.length - 1 :=
  (C2_nextLocation.1 ⟨5, 2, 7⟩ "a\nbc".data (by decide) (by decide)).2.2.1
    (by decide) 1 (by decide) (by decide) (by decide)

/-- C3 fails as stated: on the pattern set `{a: /a*/}` and source `"b"` the
scanner succeeds with an empty match whose reported kind is `undefined`
(`none`), which is not a key of the pattern set (the empty capture is
falsy, so the groups lookup finds nothing); and on the empty pattern set
`matchNext` throws a `TypeError` instead of returning NONE although no
alternative matches there. -/
theorem C3_counterexample :
    matchNext 0 "b".data ⟨[("a".data, RE.star (RE.ch 'a'))]⟩ =
      .found none [] ∧
    matchNext 0 "b".data ⟨[]⟩ = .typeError :=
  ⟨by decide, by decide⟩

/-- C3 (amended): for a non-empty pattern set, `matchNext` returns NONE
when no alternative matches exactly at the scan position (even if one
matches later); on success the text is the contiguous substring of the
source beginning exactly at the position, and the kind is a key of the
pattern set whenever the matched text is non-empty, while an empty match
reports an undefined kind. -/
theorem C3_matchAt_amended (m : CombinedMatcher) (str : Str) (i : Nat) :
    (m.alts ≠ [] → (∀ p ∈ m.alts, matchLens p.2 (str.drop i) = []) →
      matchNext i str m = .noMatch) ∧
    (∀ kOpt t, matchNext i str m = .found kOpt t →
      (∃ n, i + n ≤ str.length ∧ t = (str.drop i).take n ∧ t.length = n) ∧
      (t ≠ [] → ∃ k, kOpt = some k ∧ k ∈ m.alts.map Prod.fst) ∧
      (t = [] → kOpt = none)) := by
  constructor
  · intro halts h
    obtain ⟨alts⟩ := m
    exact matchNext_eq_noMatch h halts
  · intro kOpt t h
    obtain ⟨hle, k, r, n, hmem, hffa, hnle, ht, htl, hkind⟩ := matchNext_found_inv h
    refine ⟨⟨n, by omega, ht, htl⟩, ?_, ?_⟩
    · intro hne
      refine ⟨k, ?_, List.mem_map.2 ⟨(k, r), hmem, rfl⟩⟩
      rw [hkind, if_neg hne]
    · intro he
      rw [hkind, if_pos he]

/-- Witness for the amended C3: no entry of `{id, num, ws}` matches at the
start of `"+"`, so the scanner reports NONE. -/
theorem C3_matchAt_amended_witness :
    matchNext 0 "+".data ⟨sampleSet⟩ = .noMatch :=
  (C3_matchAt_amended ⟨sampleSet⟩ "+".data 0).1 (by simp [sampleSet]) (by decide)

/-- C4 fails as stated: with pattern set `{kw: /if/, id: /[a-zA-Z_]+/}` on
source `"iffy"`, the later-listed `id` alternative could match 4
characters, yet the scanner selects the earlier-listed `kw` match of only 2
characters — the selection is first-listed-match-wins, not longest-match. -/
theorem C4_counterexample :
    matchNext 0 "iffy".data
      ⟨[("kw".data, reOfStr "if".data), ("id".data, rePlus (.cls isWordStartChar))]⟩ =
      .found (some "kw".data) "if".data ∧
    (matchLens (rePlus (.cls isWordStartChar)) "iffy".data).head? = some 4 :=
  ⟨by decide, by decide⟩

/-- C4 (amended): at every scan position the scanner selects the match of
the earliest-listed alternative that matches there (each alternative
matching greedily on its own), regardless of whether a later-listed
alternative could match more; in particular, for the pattern set `{id, kw}`
where both could match `"if"`, the kind listed first wins. -/
theorem C4_first_listed_wins :
    (∀ (pre post : List (Str × RE)) (k : Str) (r : RE) (str : Str) (i n : Nat),
      (∀ p ∈ pre, matchLens p.2 (str.drop i) = []) →
      (matchLens r (str.drop i)).head? = some n →
      i ≤ str.length →
      matchNext i str ⟨pre ++ (k, r) :: post⟩ =
        .found (if (str.drop i).take n = [] then none else some k)
          ((str.drop i).take n)) ∧
    matchNext 0 "if".data ⟨[("id".data, idRe), ("kw".data, reOfStr "if".data)]⟩ =
      .found (some "id".data) "if".data ∧
    matchNext 0 "if".data ⟨[("kw".data, reOfStr "if".data), ("id".data, idRe)]⟩ =
      .found (some "kw".data) "if".data := by
  refine ⟨?_, by decide, by decide⟩
  intro pre post k r str i n hpre hhd hle
  have hffa : findFirstAlt (pre ++ (k, r) :: post) (str.drop i) = some (k, n) := by
    rw [findFirstAlt_append hpre]
    simp [findFirstAlt, hhd]
  exact matchNext_eq_found hffa hle

/-- Witness for the amended C4: `kw` does not match `"zz"`, so the
second-listed `id` wins with its greedy 2-character match. -/
theorem C4_first_listed_wins_witness :
    matchNext 0 "zz".data ⟨[("kw".data, reOfStr "if".data), ("id".data, idRe)]⟩ =
      .found (if ("zz".data.drop 0).take 2 = [] then none else some "id".data)
        (("zz".data.drop 0).take 2) :=
  C4_first_listed_wins.1 [("kw".data, reOfStr "if".data)] [] "id".data idRe
    "zz".data 0 2 (by decide) (by decide) (by decide)

/-- C5: every `SyntaxError` message has the exact shape
`"{line}:{column}: {msg}\n{offending source line}\n{spaces}^"` with exactly
`column - 1` leading spaces before the caret, the error value carries the
raw `loc` and `src` fields, and `lex("one + 42", {id, num, ws})` fails with
the message `"1:5: Unknown token\none + 42\n    ^"` exactly. -/
theorem C5_syntax_error_message :
    (∀ e : SyntaxErrorData, syntaxErrorMessage e =
      natStr e.loc.line ++ [':'] ++ natStr e.loc.column ++ [':', ' '] ++ e.msg
        ++ ['\n'] ++ (splitNl e.src).getD (e.loc.line - 1) undefinedStr
        ++ ['\n'] ++ (List.replicate (e.loc.column - 1) ' ' ++ ['^'])) ∧
    lex "one + 42".data sampleSet 10 =
      some (.error (.syntaxError ⟨⟨4, 1, 5⟩, "one + 42".data, unknownTokenMsg⟩)) ∧
    syntaxErrorMessage ⟨⟨4, 1, 5⟩, "one + 42".data, unknownTokenMsg⟩ =
      "1:5: Unknown token\none + 42\n    ^".data :=
  ⟨fun e => rfl, by decide, by decide⟩

/-- C6: a completed `lex` call reports a `SyntaxError` exactly at a reached
location strictly before end of input where the matcher fails: every thrown
`SyntaxError` carries the raw source, the message `"Unknown token"` and the
exact location at which matching was attempted (not end of source), and
conversely reaching an unmatched location forces that error result —
returning tokens and raising are mutually exclusive outcomes of the same
`Except` value, so no partial token sequence accompanies an error. -/
theorem C6_error_iff (regExps : List (Str × RE)) (m : CombinedMatcher) (src : Str)
    (fuel : Nat) (r : Except LexError (List Token))
    (hb : buildLexerRegExp regExps = .ok m) (h : lex src regExps fuel = some r) :
    (∀ d, r = .error (.syntaxError d) →
      d.src = src ∧ d.msg = unknownTokenMsg ∧ d.loc.index < src.length ∧
        matchNext d.loc.index src m = .noMatch ∧
        ReachesFrom m src startLocation d.loc) ∧
    (∀ loc, ReachesFrom m src startLocation loc → loc.index < src.length →
      matchNext loc.index src m = .noMatch →
      r = .error (.syntaxError ⟨loc, src, unknownTokenMsg⟩)) := by
  unfold lex at h
  rw [hb] at h
  constructor
  · intro d hd
    subst hd
    exact lexLoop_err_inv h
  · intro loc hr hlt hm
    exact lexLoop_reach_noMatch hr hlt hm h

/-- Witness for C6 at `lex("one + 42", {id, num, ws})`: the error is thrown
at the reached location `{4, 1, 5}`, where the matcher fails. -/
theorem C6_error_iff_witness :
    (⟨⟨4, 1, 5⟩, "one + 42".data, unknownTokenMsg⟩ : SyntaxErrorData).src
        = "one + 42".data ∧
      (⟨⟨4, 1, 5⟩, "one + 42".data, unknownTokenMsg⟩ : SyntaxErrorData).msg
        = unknownTokenMsg ∧
      (⟨⟨4, 1, 5⟩, "one + 42".data, unknownTokenMsg⟩ : SyntaxErrorData).loc.index
        < "one + 42".data.length ∧
      matchNext (⟨⟨4, 1, 5⟩, "one + 42".data, unknownTokenMsg⟩ :
        SyntaxErrorData).loc.index "one + 42".data ⟨sampleSet⟩ = .noMatch ∧
      ReachesFrom ⟨sampleSet⟩ "one + 42".data startLocation
        (⟨⟨4, 1, 5⟩, "one + 42".data, unknownTokenMsg⟩ : SyntaxErrorData).loc :=
  (C6_error_iff sampleSet ⟨sampleSet⟩ "one + 42".data 10
    (.error (.syntaxError ⟨⟨4, 1, 5⟩, "one + 42".data, unknownTokenMsg⟩))
    (by rfl) (by decide)).1 _ rfl

/-- C7: when some kind-name is unusable as a capture-group name or two
entries share a kind-name, `new RegExp` in `buildLexerRegExp` throws the
configuration-time error (the spec's `PatternError`), and `lex` surfaces it
for every source before any lexing begins, producing no tokens (the
fragments themselves are ASTs here, so fragment compilation cannot fail in
the model). -/
theorem C7_pattern_error (regExps : List (Str × RE)) (src : Str) (fuel : Nat)
    (h : ¬ ((regExps.all (fun p => validGroupName p.1)) ∧
      (regExps.map Prod.fst).Nodup)) :
    buildLexerRegExp regExps = .error .patternError ∧
    lex src regExps fuel = some (.error .patternError) := by
  have hb : buildLexerRegExp regExps = .error .patternError := by
    unfold buildLexerRegExp
    rw [if_neg h]
  refine ⟨hb, ?_⟩
  unfold lex
  rw [hb]

/-- Witness for C7 on a pattern set with a duplicate kind-name. -/
theorem C7_pattern_error_witness :
    buildLexerRegExp [("a".data, RE.eps), ("a".data, RE.eps)] =
      .error .patternError ∧
    lex "x".data [("a".data, RE.eps), ("a".data, RE.eps)] 5 =
      some (.error .patternError) :=
  C7_pattern_error [("a".data, RE.eps), ("a".data, RE.eps)] "x".data 5 (by decide)

/-- C8: under the assumption that every successful match strictly advances
the index (no position yields an empty match), the `lex` loop terminates
within `length(source)` iterations — fuel `length + 1` suffices — and on
the empty source `lex` returns the empty token sequence immediately, in
zero iterations, with no error, for every pattern set the matcher builder
accepts. -/
theorem C8_termination (regExps : List (Str × RE)) (m : CombinedMatcher) (src : Str)
    (hb : buildLexerRegExp regExps = .ok m)
    (hprog : ∀ i, i < src.length → foundEmpty (matchNext i src m) = false) :
    lex src regExps (src.length + 1) ≠ none ∧
    (src = [] → ∀ fuel, 1 ≤ fuel → lex src regExps fuel = some (.ok [])) := by
  constructor
  · unfold lex
    rw [hb]
    apply lexLoop_isSome hprog
    simp [startLocation]
  · intro hsrc fuel hfuel
    subst hsrc
    unfold lex
    rw [hb]
    match fuel, hfuel with
    | fuel + 1, _ => simp [lexLoop, startLocation]

/-- Witness for C8 on the documentation example, where no position yields
an empty match. -/
theorem C8_termination_witness :
    lex "one 42".data sampleSet ("one 42".data.length + 1) ≠ none :=
  (C8_termination sampleSet ⟨sampleSet⟩ "one 42".data (by rfl) (by decide)).1

/-- C9: across every successful `lex` run the produced locations — starting
at `{0, 1, 1}` and advanced by `nextLocation` after each token — keep
`column ≥ 1` throughout, never decrease `index` or `line` from one token to
the next, and strictly increase `index` whenever every matched text is
non-empty. -/
theorem C9_location_invariants (src : Str) (regExps : List (Str × RE)) (fuel : Nat)
    (ts : List Token) (h : lex src regExps fuel = some (.ok ts)) :
    (∀ tok, ts.head? = some tok → tok.loc = startLocation) ∧
    (∀ tok ∈ ts, 1 ≤ tok.loc.column) ∧
    List.Chain' (fun a b => a.loc.index ≤ b.loc.index ∧ a.loc.line ≤ b.loc.line) ts ∧
    ((∀ tok ∈ ts, tok.text ≠ []) →
      List.Chain' (fun a b => a.loc.index < b.loc.index) ts) := by
  unfold lex at h
  cases hb : buildLexerRegExp regExps with
  | error e => rw [hb] at h; simp at h
  | ok m =>
    rw [hb] at h
    obtain ⟨suf, hts, hchain⟩ := lexLoop_ok_chain h
    simp only [List.nil_append] at hts
    subst hts
    have hadv := tokChain_chain hchain
    refine ⟨?_, tokChain_column hchain (by decide), chain_mono_of_adv hadv,
      fun hne => chain_strict_of_adv hadv hne⟩
    intro tok htok
    cases ts with
    | nil => cases htok
    | cons a rest =>
      simp only [List.head?_cons, Option.some.injEq] at htok
      subst htok
      exact tokChain_head_loc hchain

/-- Witness for C9 on the documentation example's successful run. -/
theorem C9_location_invariants_witness :
    List.Chain' (fun a b => a.loc.index ≤ b.loc.index ∧ a.loc.line ≤ b.loc.line)
      ([⟨some "id".data, "one".data, ⟨0, 1, 1⟩⟩,
        ⟨some "ws".data, " ".data, ⟨3, 1, 4⟩⟩,
        ⟨some "num".data, "42".data, ⟨4, 1, 5⟩⟩] : List Token) :=
  (C9_location_invariants "one 42".data sampleSet 10 _ (by decide)).2.2.1

/-- C10 fails as stated: on the empty pattern set and the non-empty source
`"a"` the call terminates on its very first iteration — the empty combined
pattern matches the empty string, but the match has no named groups, so
`Object.keys(match.groups)` throws a `TypeError` inside `matchNext` rather
than returning a result with text `""`, and `lex` propagates it. -/
theorem C10_counterexample :
    matchNext 0 "a".data ⟨[]⟩ = .typeError ∧
    lex "a".data [] 1 = some (.error .typeError) :=
  ⟨by decide, by decide⟩

/-- C10 (amended): for the empty pattern set `{}` and every non-empty
source string, `lex` terminates immediately with a `TypeError`:
`buildLexerRegExp` produces the empty pattern, which matches the empty
string at index 0, but its match carries no groups object, so `matchNext`
throws on the first iteration and no token is produced and the loop never
runs again. -/
theorem C10_empty_set_type_error (src : Str) (hsrc : src ≠ []) (fuel : Nat)
    (hfuel : 1 ≤ fuel) :
    lex src [] fuel = some (.error .typeError) := by
  have hb : buildLexerRegExp [] = .ok ⟨[]⟩ := rfl
  unfold lex
  rw [hb]
  match fuel, hfuel with
  | fuel + 1, _ =>
    have hlt : startLocation.index < src.length := List.length_pos.2 hsrc
    have hm : matchNext startLocation.index src ⟨[]⟩ = .typeError :=
      matchNext_nil_alts (Nat.zero_le _)
    simp [lexLoop, hlt, hm]

/-- Witness for the amended C10. -/
theorem C10_empty_set_type_error_witness :
    lex "a".data [] 1 = some (.error .typeError) :=
  C10_empty_set_type_error "a".data (by decide) 1 (by decide)

end LexRe
